import Mathlib

/-
Shallow embedding of the component registration and build lifecycle of
qiskit_metal/components/base/base.py: option template resolution over a
class ancestry chain, template registration in a design, the pin factory,
the build transition and the geometry facade.  Python dicts are modeled
as association lists kept in insertion order, matching dict semantics.
-/


/-- Option mappings hold string keys and string values.  The dict merge in
the source is shallow, so nested values play no role here. -/
abbrev OptionsMap := List (String × String)

/-- First-match association lookup, the model of Python dict membership and
indexing. -/
def assocLookup {α β : Type} [DecidableEq α] (k : α) : List (α × β) → Option β
  | [] => none
  | (k2, v) :: rest => if k2 = k then some v else assocLookup k rest

/-- Rewrite of one entry by the merge dict, keeping the key and its position. -/
def dictUpdFn (d : OptionsMap) (p : String × String) : String × String :=
  match assocLookup p.1 d with
  | some v => (p.1, v)
  | none => p

/-- Python dict merge, as in a Python double-star unpacking of a then d and in
dict update: the keys of a keep their positions with values overridden by d
where present, then the keys of d not already in a follow in order. -/
def dictUpdate (a d : OptionsMap) : OptionsMap :=
  a.map (dictUpdFn d) ++ d.filter (fun p => (assocLookup p.1 a).isNone)

/-- A well formed Python dict has no duplicate keys. -/
def NodupKeys (m : OptionsMap) : Prop := (m.map Prod.fst).Nodup

instance (m : OptionsMap) : Decidable (NodupKeys m) :=
  inferInstanceAs (Decidable ((m.map Prod.fst).Nodup))

/-- A class in a component ancestry: its qualified name and, when the class
declares one, its own default_options dict.  A component type is its method
resolution order as a list, most derived class first, with the trailing
object entry dropped exactly as the slice in the source drops it.  The base
QComponent appears as an entry without default_options. -/
structure ClassDef where
  name : String
  default_options : Option OptionsMap
deriving DecidableEq, Inhabited

/-- The suffix chains of the ancestry in base-to-derived order: the loop of
_gather_all_children_options visits the classes from the most base one to the
most derived one, and Python attribute access on each visited class resolves
along that class own method resolution order, which is the corresponding
suffix of the chain. -/
def mroTails : List ClassDef → List (List ClassDef)
  | [] => []
  | c :: rest => mroTails rest ++ [c :: rest]

/-- Python attribute resolution of default_options along a method resolution
order: the first class that declares the attribute provides the value.  This
is what hasattr plus attribute access in the source observe. -/
def resolveDefaultOptions : List ClassDef → Option OptionsMap
  | [] => none
  | c :: rest =>
    match c.default_options with
    | some d => some d
    | none => resolveDefaultOptions rest

/-- QComponent._gather_all_children_options: start from an empty dict and,
for each class from the most base to the most derived, if the class has a
default_options attribute, merge it on top of the accumulator. -/
def gather_all_children_options (chain : List ClassDef) : OptionsMap :=
  (mroTails chain).foldl
    (fun acc s =>
      match resolveDefaultOptions s with
      | some d => dictUpdate acc d
      | none => acc) []

/-- The resolved template as the spec words it: the successive merge of each
class own default_options applied in base-to-derived order, where a class
without default_options contributes nothing.  The chain argument is most
derived first, so the fold runs over its reverse. -/
def specResolvedTemplate (chain : List ClassDef) : OptionsMap :=
  chain.reverse.foldl
    (fun acc c =>
      match c.default_options with
      | some d => dictUpdate acc d
      | none => acc) []

/-- A concrete ancestry: a derived qubit class over a base qubit class over
the bare QComponent, with one overridden key. -/
def chainC1 : List ClassDef :=
  [ { name := "TransmonPocket",
      default_options := some [("pad_width", "455um"), ("pos_x", "0um")] },
    { name := "BaseQubit",
      default_options := some [("pos_x", "5um"), ("chip", "main")] },
    { name := "QComponent", default_options := none } ]

/-- The design as the registration code observes it: the validity marker that
is_design reports, the per design template options cache, the id allocation
counter and the component registry. -/
structure DesignState where
  valid : Bool
  template_options : List (String × OptionsMap)
  next_id : Nat
  components : List (Nat × String)
deriving DecidableEq, Inhabited

/-- Value level model of copy.deepcopy on an options dict: a copy of a value
is the value itself.  The aliasing content of deepcopy is modeled separately
on the heap model below. -/
def deepcopy (m : OptionsMap) : OptionsMap := m

/-- QComponent._get_unique_class_name, keyed on the most derived class of the
chain. -/
def uniqueClassName : List ClassDef → String
  | [] => ""
  | c :: _ => c.name

/-- QComponent._register_class_with_design: do not overwrite an existing
template; otherwise store a deep copy of the explicit template when it is
truthy, else of the merged ancestry defaults. -/
def _register_class_with_design (chain : List ClassDef) (design : DesignState)
    (template_key : String) (component_template : Option OptionsMap) : DesignState :=
  match assocLookup template_key design.template_options with
  | some _ => design
  | none =>
    let ct : OptionsMap :=
      match component_template with
      | none => gather_all_children_options chain
      | some t => if t.isEmpty then gather_all_children_options chain else t
    { design with
        template_options := design.template_options ++ [(template_key, deepcopy ct)] }

/-- QComponent.get_template_options: register the class when the key is
absent, then return a deep copy of the stored template.  The second absence
check in the source only logs an error and changes no state, so it is not
modeled. -/
def get_template_options (chain : List ClassDef) (design : DesignState)
    (component_template : Option OptionsMap) (template_key0 : Option String) :
    DesignState × OptionsMap :=
  let template_key := template_key0.getD (uniqueClassName chain)
  let design1 :=
    match assocLookup template_key design.template_options with
    | some _ => design
    | none => _register_class_with_design chain design template_key component_template
  (design1, deepcopy ((assocLookup template_key design1.template_options).getD []))

/-- An empty design to exercise first time registration. -/
def designEmpty : DesignState :=
  { valid := true, template_options := [], next_id := 0, components := [] }

/-- Coordinates are exact rationals; the concrete pin of the claim only
involves rational values. -/
abbrev Point := ℚ × ℚ

def vsub (a b : Point) : Point := (a.1 - b.1, a.2 - b.2)

def normSq (v : Point) : ℚ := v.1 * v.1 + v.2 * v.2

/-- Integer square root by bounded search, the largest m with m * m ≤ n. -/
def isqrt (n : Nat) : Nat :=
  ((List.range (n + 1)).filter (fun m => m * m ≤ n)).length - 1

/-- Exact square root on the rationals: the rational square root when one
exists, otherwise zero.  The claims only evaluate it on perfect squares. -/
def ratSqrt (q : ℚ) : ℚ :=
  if q ≤ 0 then 0
  else
    let n := q.num.toNat
    let d := q.den
    if isqrt n * isqrt n = n ∧ isqrt d * isqrt d = d
    then (isqrt n : ℚ) / (isqrt d : ℚ)
    else 0

/-- Modelled from the spec: draw.Vector.two_points_described is code of this
repository that is not under src.  Per the spec it returns the direction
vector between the two points, the unit direction vector (the tangent) and a
unit vector orthogonal to it (the normal), taken here as the counterclockwise
quarter turn of the tangent. -/
def two_points_described (points : List Point) : Point × Point × Point :=
  match points with
  | [p1, p2] =>
    let d := vsub p2 p1
    let len := ratSqrt (normSq d)
    let u : Point := (d.1 / len, d.2 / len)
    (d, u, (-u.2, u.1))
  | _ => ((0, 0), (0, 0), (0, 0))

/-- A pin, exactly the dict built by QComponent.make_pin. -/
structure Pin where
  points : List Point
  middle : Point
  normal : Point
  tangent : Point
  width : ℚ
  chip : String
  parent_name : String
  net_id : Nat
deriving DecidableEq, Inhabited

/-- QComponent.make_pin: requires exactly two points, flips the normal when
asked, and builds the pin record.  The middle is the componentwise sum of the
points halved, the width the Euclidean norm of the direction vector.  The
length assert is modeled by returning none. -/
def make_pin (points : List Point) (parent_name : String) (flip : Bool)
    (chip : String) : Option Pin :=
  if points.length = 2 then
    match two_points_described points with
    | (vec_dist, vec_dist_unit, vec_normal0) =>
      some { points := points
             middle := (((points.map Prod.fst).sum) / 2, ((points.map Prod.snd).sum) / 2)
             normal := if flip then (-vec_normal0.1, -vec_normal0.2) else vec_normal0
             tangent := vec_dist_unit
             width := ratSqrt (normSq vec_dist)
             chip := chip
             parent_name := parent_name
             net_id := 0 }
  else none

/-- A call received by the geometry table service, the collaborator behind
design.elements.  The trace of received calls is the observable behavior of
the service. -/
inductive GeomCall where
  | deleteComponent (id : Nat)
  | addElements (kind : String) (id : Nat)
deriving DecidableEq

/-- The mutable fields of a QComponent instance that the lifecycle touches. -/
structure Comp where
  name : String
  id : Nat
  status : String
  made : Bool
  options : OptionsMap
  pins : List (String × Pin)
deriving DecidableEq, Inhabited

/-- The world a component method runs in: the component itself, the design
registry and the trace of calls the geometry table service has received. -/
structure World where
  comp : Comp
  design : DesignState
  calls : List GeomCall
deriving DecidableEq, Inhabited

/-- A user supplied make override: it transforms the world and either returns
normally (none) or raises, modeled as some error code together with the world
at the moment of the raise. -/
abbrev MakeFn := World → World × Option Nat

/-- QComponent.do_make: set status to failed; when already made, have the
geometry table service delete this component id and call make; on a first
build call make and then set the made flag; an exception from make propagates
as is; on normal return set status to good. -/
def do_make (make_fn : MakeFn) (w : World) : World × Option Nat :=
  let w1 : World := { w with comp.status := "failed" }
  if w1.comp.made = true then
    let w2 : World := { w1 with calls := w1.calls ++ [GeomCall.deleteComponent w1.comp.id] }
    match make_fn w2 with
    | (w3, some e) => (w3, some e)
    | (w3, none) => ({ w3 with comp.status := "good" }, none)
  else
    match make_fn w1 with
    | (w3, some e) => (w3, some e)
    | (w3, none) => ({ w3 with comp.made := true, comp.status := "good" }, none)

/-- The source binds rebuild to the same function object as do_make. -/
def rebuild : MakeFn → World → World × Option Nat := do_make

/-- The world at the instant do_make hands control to the user make override:
status already failed and, on a rebuild, the delete call already received. -/
def preMakeState (w : World) : World :=
  let w1 : World := { w with comp.status := "failed" }
  if w1.comp.made = true then
    { w1 with calls := w1.calls ++ [GeomCall.deleteComponent w1.comp.id] }
  else w1

/-- Modelled from the spec: the design id allocator _get_new_qcomponent_id
lives in the design container outside src; per the spec it hands out fresh,
strictly monotonic integer ids. -/
def get_new_qcomponent_id (d : DesignState) : DesignState × Nat :=
  ({ d with next_id := d.next_id + 1 }, d.next_id + 1)

/-- An exception escaping the constructor: the failed is_design assert, or an
exception propagating out of make during the final do_make.  Each carries the
state observable at the moment of the raise. -/
inductive InitErr where
  | invalidDesign (design : DesignState)
  | buildError (code : Nat) (w : World)
deriving DecidableEq

/-- The body of QComponent.__init__ up to the final build: resolve options
from the design template merged with the caller overrides; start with status
not built, the made flag off and no pins; obtain a fresh id and register it
in the design component registry. -/
def init_world (chain : List ClassDef) (design : DesignState) (name : String)
    (options component_template : Option OptionsMap) : World :=
  let tpl := get_template_options chain design component_template none
  let opts : OptionsMap :=
    match options with
    | some o => dictUpdate tpl.2 o
    | none => tpl.2
  let alloc := get_new_qcomponent_id tpl.1
  { comp := { name := name, id := alloc.2, status := "not built", made := false,
              options := opts, pins := [] },
    design := { alloc.1 with components := alloc.1.components ++ [(alloc.2, name)] },
    calls := [] }

/-- QComponent.__init__: assert is_design first, raising before any state
change when the design is not valid; then assemble the component world and
run do_make when the make flag is set, letting a make exception escape. -/
def qcomponent_init (chain : List ClassDef) (make_fn : MakeFn) (design : DesignState)
    (name : String) (options : Option OptionsMap) (mk : Bool)
    (component_template : Option OptionsMap) : Except InitErr World :=
  if design.valid = true then
    if mk then
      match do_make make_fn (init_world chain design name options component_template) with
      | (w2, some e) => Except.error (InitErr.buildError e w2)
      | (w2, none) => Except.ok w2
    else Except.ok (init_world chain design name options component_template)
  else Except.error (InitErr.invalidDesign design)

/-- Occurrences of the delete call for one component id in a trace. -/
def countDel (i : Nat) : List GeomCall → Nat
  | [] => 0
  | c :: rest => (if c = GeomCall.deleteComponent i then 1 else 0) + countDel i rest

/-- A rebuilt component world for the lifecycle witnesses. -/
def wC4 : World :=
  { comp := { name := "q1", id := 3, status := "good", made := true,
              options := [], pins := [] },
    design := { valid := true, template_options := [], next_id := 4,
                components := [(3, "q1")] },
    calls := [] }

/-- A make override that always raises error code 7 without touching state. -/
def fC4 : MakeFn := fun v => (v, some 7)

/-- A rebuilt component world whose service trace already holds a call. -/
def wC6 : World :=
  { comp := { name := "q6", id := 3, status := "good", made := true,
              options := [], pins := [] },
    design := { valid := true, template_options := [], next_id := 4,
                components := [(3, "q6")] },
    calls := [GeomCall.addElements "poly" 3] }

/-- A make override that adds one path element and returns normally. -/
def fC6 : MakeFn :=
  fun v => ({ v with calls := v.calls ++ [GeomCall.addElements "path" 3] }, none)

/-- Projection of a constructor outcome to the status of the component when
the constructor returned normally. -/
def exceptStatus : Except InitErr World → Option String
  | Except.ok w => some w.comp.status
  | Except.error _ => none

/-- A one class chain with one default option. -/
def chainC5 : List ClassDef :=
  [ { name := "Comp5", default_options := some [("w", "1um")] } ]

/-- A make override that changes nothing and returns normally. -/
def fC5 : MakeFn := fun v => (v, none)

/-- The world produced by a successful immediate build from an empty design. -/
def wC5 : World :=
  match qcomponent_init chainC5 fC5 designEmpty "q5" none true none with
  | Except.ok w => w
  | Except.error _ => default

/-- A design rejected by is_design. -/
def designInvalid : DesignState :=
  { valid := false, template_options := [], next_id := 0, components := [] }

/-- The geometry table service behind design.elements, as the facade reads
it: the kind validity check and the retrieval operations, with an abstract
payload type for tables and geometry dicts. -/
structure GeomService (γ : Type) where
  check_element_type : String → Bool
  get_component_geometry_dict : Nat → String → γ
  get_component : Nat → String → γ

/-- A retrieval call received by the geometry table service. -/
inductive QueryCall where
  | getGeometryDict (id : Nat) (kind : String)
  | getTable (id : Nat) (kind : String)
deriving DecidableEq

/-- QComponent.elements_dict: validate the kind with the service; on success
forward to the geometry dict retrieval, otherwise fall through, which in the
source returns None and emits no retrieval call. -/
def elements_dict {γ : Type} (svc : GeomService γ) (c : Comp)
    (element_type : String) : Option γ × List QueryCall :=
  if svc.check_element_type element_type = true then
    (some (svc.get_component_geometry_dict c.id element_type),
      [QueryCall.getGeometryDict c.id element_type])
  else (none, [])

/-- QComponent.elements_table: the same validation, forwarding to the table
retrieval get_component. -/
def elements_table {γ : Type} (svc : GeomService γ) (c : Comp)
    (element_type : String) : Option γ × List QueryCall :=
  if svc.check_element_type element_type = true then
    (some (svc.get_component c.id element_type),
      [QueryCall.getTable c.id element_type])
  else (none, [])

/-- A service that only knows the poly kind. -/
def svcC7 : GeomService Nat :=
  { check_element_type := fun k => k == "poly",
    get_component_geometry_dict := fun _ _ => 0,
    get_component := fun _ _ => 0 }

/-- A heap of option dicts addressed by references, making the Python object
identity of dicts explicit: deepcopy allocates a fresh reference holding the
same value, while plain assignment shares the reference. -/
structure Heap where
  store : List (Nat × OptionsMap)
  next : Nat
deriving DecidableEq

/-- Dereference a dict; the latest write wins. -/
def readRef (h : Heap) (r : Nat) : OptionsMap :=
  (assocLookup r h.store).getD []

/-- In place mutation of the dict behind a reference, as dict update does. -/
def writeRef (h : Heap) (r : Nat) (m : OptionsMap) : Heap :=
  { h with store := (r, m) :: h.store }

/-- Allocate a fresh dict holding the value m. -/
def halloc (h : Heap) (m : OptionsMap) : Heap × Nat :=
  ({ store := (h.next, m) :: h.store, next := h.next + 1 }, h.next)

/-- copy.deepcopy on the heap: a fresh reference with the current value. -/
def hdeepcopy (h : Heap) (r : Nat) : Heap × Nat :=
  halloc h (readRef h r)

/-- The template a first registration stores: the explicit template when it
is truthy, else the merged ancestry defaults. -/
def registeredTemplate (chain : List ClassDef) (component_template : Option OptionsMap) :
    OptionsMap :=
  match component_template with
  | none => gather_all_children_options chain
  | some t => if t.isEmpty then gather_all_children_options chain else t

/-- _register_class_with_design on the heap model: design.template_options
maps type keys to dict references; a first registration deep copies the
chosen template into a fresh reference. -/
def hRegister (chain : List ClassDef) (h : Heap) (tmpl : List (String × Nat))
    (template_key : String) (component_template : Option OptionsMap) :
    Heap × List (String × Nat) :=
  match assocLookup template_key tmpl with
  | some _ => (h, tmpl)
  | none =>
    let hr := halloc h (registeredTemplate chain component_template)
    (hr.1, tmpl ++ [(template_key, hr.2)])

/-- get_template_options on the heap model: register when absent, then hand
back a deep copy of the stored template dict, so the caller receives a fresh
reference.  Returns the heap, the template map and the returned reference. -/
def hGetTemplateOptions (chain : List ClassDef) (h : Heap)
    (tmpl : List (String × Nat)) (component_template : Option OptionsMap) :
    Heap × List (String × Nat) × Nat :=
  let template_key := uniqueClassName chain
  let p :=
    match assocLookup template_key tmpl with
    | some _ => (h, tmpl)
    | none => hRegister chain h tmpl template_key component_template
  let r0 := (assocLookup template_key p.2).getD 0
  let hc := hdeepcopy p.1 r0
  (hc.1, p.2, hc.2)

/-- An empty heap for the deep copy witness. -/
def heapC9 : Heap := { store := [], next := 0 }

theorem assocLookup_append {α β : Type} [DecidableEq α] (k : α) (l1 l2 : List (α × β)) :
    assocLookup k (l1 ++ l2)
      = match assocLookup k l1 with
        | some v => some v
        | none => assocLookup k l2 := by
  induction l1 with
  | nil => simp [assocLookup]
  | cons p rest ih =>
    obtain ⟨k2, v⟩ := p
    by_cases h : k2 = k <;> simp [assocLookup, h, ih]

theorem assocLookup_map_updFn (d a : OptionsMap) (k : String) :
    (assocLookup k (a.map (dictUpdFn d))).isSome = (assocLookup k a).isSome := by
  induction a with
  | nil => simp [assocLookup]
  | cons p rest ih =>
    obtain ⟨k2, v⟩ := p
    by_cases h : k2 = k
    · subst h
      cases hd : assocLookup k2 d <;> simp [assocLookup, dictUpdFn, hd]
    · cases hd : assocLookup k2 d <;> simp [assocLookup, dictUpdFn, hd, h, ih]

theorem assocLookup_isSome_of_mem {α β : Type} [DecidableEq α] {l : List (α × β)}
    {p : α × β} (h : p ∈ l) : (assocLookup p.1 l).isSome := by
  induction l with
  | nil => simp at h
  | cons q rest ih =>
    obtain ⟨k2, v⟩ := q
    rcases List.mem_cons.mp h with h1 | h1
    · subst h1; simp [assocLookup]
    · by_cases hk : k2 = p.1 <;> simp [assocLookup, hk, ih h1]

theorem assocLookup_of_mem_nodup {l : OptionsMap} {p : String × String}
    (hnd : NodupKeys l) (h : p ∈ l) : assocLookup p.1 l = some p.2 := by
  induction l with
  | nil => simp at h
  | cons q rest ih =>
    obtain ⟨k2, v2⟩ := q
    have hnd1 : (k2 :: rest.map Prod.fst).Nodup := hnd
    have hk2 : k2 ∉ rest.map Prod.fst := (List.nodup_cons.mp hnd1).1
    have hnd2 : NodupKeys rest := (List.nodup_cons.mp hnd1).2
    rcases List.mem_cons.mp h with h1 | h1
    · subst h1; simp [assocLookup]
    · have hne : k2 ≠ p.1 := by
        intro he
        exact hk2 (he ▸ List.mem_map.mpr ⟨p, h1, rfl⟩)
      simp [assocLookup, hne, ih hnd2 h1]

theorem listMapSelf {α : Type} {f : α → α} {l : List α} (h : ∀ a ∈ l, f a = a) :
    l.map f = l := by
  induction l with
  | nil => rfl
  | cons a rest ih =>
    simp [h a (List.mem_cons_self a rest),
      ih (fun b hb => h b (List.mem_cons_of_mem a hb))]

theorem dictUpdFn_idem (d : OptionsMap) (p : String × String) :
    dictUpdFn d (dictUpdFn d p) = dictUpdFn d p := by
  cases h : assocLookup p.1 d with
  | none => simp [dictUpdFn, h]
  | some v => simp [dictUpdFn, h]

theorem filter_isNone_nil (d X : OptionsMap)
    (h : ∀ p ∈ d, (assocLookup p.1 X).isSome) :
    d.filter (fun p => (assocLookup p.1 X).isNone) = [] := by
  rw [List.filter_eq_nil_iff]
  intro p hp
  cases hx : assocLookup p.1 X with
  | none => have := h p hp; rw [hx] at this; simp at this
  | some v => simp [hx]

theorem dictUpdate_self (a d : OptionsMap) (hnd : NodupKeys d) :
    dictUpdate (dictUpdate a d) d = dictUpdate a d := by
  unfold dictUpdate
  rw [List.map_append]
  have h1 : (a.map (dictUpdFn d)).map (dictUpdFn d) = a.map (dictUpdFn d) := by
    apply listMapSelf
    intro q hq
    obtain ⟨p, _, rfl⟩ := List.mem_map.mp hq
    exact dictUpdFn_idem d p
  have h2 : (d.filter (fun p => (assocLookup p.1 a).isNone)).map (dictUpdFn d)
      = d.filter (fun p => (assocLookup p.1 a).isNone) := by
    apply listMapSelf
    intro p hp
    have hpd : p ∈ d := (List.mem_filter.mp hp).1
    have hl : assocLookup p.1 d = some p.2 := assocLookup_of_mem_nodup hnd hpd
    simp [dictUpdFn, hl]
  have h3 : d.filter (fun p =>
        (assocLookup p.1 (a.map (dictUpdFn d)
          ++ d.filter (fun q => (assocLookup q.1 a).isNone))).isNone) = [] := by
    apply filter_isNone_nil
    intro p hp
    rw [assocLookup_append]
    cases hA : assocLookup p.1 a with
    | some v =>
      have hs : (assocLookup p.1 (a.map (dictUpdFn d))).isSome = true := by
        rw [assocLookup_map_updFn, hA]; rfl
      cases hM : assocLookup p.1 (a.map (dictUpdFn d)) with
      | none => rw [hM] at hs; simp at hs
      | some w => simp [hM]
    | none =>
      have hM : assocLookup p.1 (a.map (dictUpdFn d)) = none := by
        have hs : (assocLookup p.1 (a.map (dictUpdFn d))).isSome = false := by
          rw [assocLookup_map_updFn, hA]; rfl
        cases hM2 : assocLookup p.1 (a.map (dictUpdFn d)) with
        | none => rfl
        | some w => rw [hM2] at hs; simp at hs
      have hmem : p ∈ d.filter (fun q => (assocLookup q.1 a).isNone) :=
        List.mem_filter.mpr ⟨hp, by simp [hA]⟩
      have := assocLookup_isSome_of_mem hmem
      rw [hM]
      cases hF : assocLookup p.1 (d.filter (fun q => (assocLookup q.1 a).isNone)) with
      | none => rw [hF] at this; simp at this
      | some w => simp
  rw [h1, h2, h3, List.append_nil]

theorem gather_cons (c : ClassDef) (rest : List ClassDef) :
    gather_all_children_options (c :: rest)
      = match resolveDefaultOptions (c :: rest) with
        | some d => dictUpdate (gather_all_children_options rest) d
        | none => gather_all_children_options rest := by
  unfold gather_all_children_options
  simp only [mroTails]
  rw [List.foldl_append]
  simp

theorem specResolvedTemplate_cons (c : ClassDef) (rest : List ClassDef) :
    specResolvedTemplate (c :: rest)
      = match c.default_options with
        | some d => dictUpdate (specResolvedTemplate rest) d
        | none => specResolvedTemplate rest := by
  unfold specResolvedTemplate
  rw [List.reverse_cons, List.foldl_append]
  simp

theorem resolveDefaultOptions_mem (chain : List ClassDef) (d : OptionsMap)
    (h : resolveDefaultOptions chain = some d) :
    ∃ c ∈ chain, c.default_options = some d := by
  induction chain with
  | nil => simp [resolveDefaultOptions] at h
  | cons c rest ih =>
    cases hc : c.default_options with
    | some d2 =>
      rw [resolveDefaultOptions, hc] at h
      exact ⟨c, List.mem_cons_self c rest, by rw [hc, Option.some_inj.mp h]⟩
    | none =>
      rw [resolveDefaultOptions, hc] at h
      obtain ⟨c2, hc2, hd2⟩ := ih h
      exact ⟨c2, List.mem_cons_of_mem c hc2, hd2⟩

theorem gather_absorb (chain : List ClassDef) (d : OptionsMap)
    (h : resolveDefaultOptions chain = some d) (hnd : NodupKeys d) :
    dictUpdate (gather_all_children_options chain) d
      = gather_all_children_options chain := by
  cases chain with
  | nil => simp [resolveDefaultOptions] at h
  | cons c rest =>
    rw [gather_cons, h]
    exact dictUpdate_self _ d hnd

/-- C1: for every component type with a linear ancestry chain, the template
produced by the option resolver _gather_all_children_options equals the
successive merge of each ancestor class own default_options applied in
base-to-derived order, where a more derived value wins for a shared key via
dictUpdate and classes without default_options contribute nothing.  The
hypothesis states that each declared default_options dict has no duplicate
keys, which every Python dict satisfies. -/
theorem gather_matches_ancestry_merge (chain : List ClassDef)
    (hwf : ∀ c ∈ chain, NodupKeys (c.default_options.getD [])) :
    gather_all_children_options chain = specResolvedTemplate chain := by
  induction chain with
  | nil => rfl
  | cons c rest ih =>
    have hwfRest : ∀ c2 ∈ rest, NodupKeys (c2.default_options.getD []) :=
      fun c2 hc2 => hwf c2 (List.mem_cons_of_mem c hc2)
    rw [gather_cons, specResolvedTemplate_cons]
    cases hc : c.default_options with
    | some d =>
      have hres : resolveDefaultOptions (c :: rest) = some d := by
        simp [resolveDefaultOptions, hc]
      rw [hres]
      show dictUpdate (gather_all_children_options rest) d
        = dictUpdate (specResolvedTemplate rest) d
      rw [ih hwfRest]
    | none =>
      have hres : resolveDefaultOptions (c :: rest) = resolveDefaultOptions rest := by
        simp [resolveDefaultOptions, hc]
      rw [hres]
      cases hr : resolveDefaultOptions rest with
      | none =>
        show gather_all_children_options rest = specResolvedTemplate rest
        exact ih hwfRest
      | some d =>
        obtain ⟨c2, hc2, hd⟩ := resolveDefaultOptions_mem rest d hr
        have hnd : NodupKeys d := by
          have := hwfRest c2 hc2
          rw [hd] at this
          simpa using this
        show dictUpdate (gather_all_children_options rest) d = specResolvedTemplate rest
        rw [gather_absorb rest d hr hnd]
        exact ih hwfRest

theorem gather_matches_ancestry_merge_witness :
    gather_all_children_options chainC1 = specResolvedTemplate chainC1 :=
  gather_matches_ancestry_merge chainC1 (by decide)

theorem assocLookup_append_self {α β : Type} [DecidableEq α] (k : α)
    (l : List (α × β)) (v : β) (h : assocLookup k l = none) :
    assocLookup k (l ++ [(k, v)]) = some v := by
  rw [assocLookup_append, h]
  simp [assocLookup]

theorem register_lookup_isSome (chain : List ClassDef) (s : DesignState)
    (k : String) (ct : Option OptionsMap) :
    (assocLookup k ((_register_class_with_design chain s k ct).template_options)).isSome := by
  unfold _register_class_with_design
  cases h : assocLookup k s.template_options with
  | some v => simp [h]
  | none => simp [assocLookup_append_self k s.template_options _ h]

theorem register_of_isSome (chain : List ClassDef) (s : DesignState)
    (k : String) (ct : Option OptionsMap)
    (h : (assocLookup k s.template_options).isSome) :
    _register_class_with_design chain s k ct = s := by
  unfold _register_class_with_design
  cases h2 : assocLookup k s.template_options with
  | some v => rfl
  | none => rw [h2] at h; simp at h

theorem get_template_options_lookup_isSome (chain : List ClassDef) (s : DesignState)
    (ct : Option OptionsMap) (k : String) :
    (assocLookup k (((get_template_options chain s ct (some k)).1).template_options)).isSome := by
  unfold get_template_options
  cases h : assocLookup k s.template_options with
  | some v => simp [h]
  | none => simp [h, register_lookup_isSome]

/-- C2: template registration is idempotent.  A second registration for the
same type key, with any different explicit template and from any class chain,
leaves the stored template untouched, both through the raw registration entry
point and through get_template_options, which even leaves the whole design
state unchanged. -/
theorem register_idempotent (chain1 chain2 : List ClassDef) (s : DesignState)
    (k : String) (ct1 ct2 : Option OptionsMap) :
    assocLookup k ((_register_class_with_design chain2
        (_register_class_with_design chain1 s k ct1) k ct2).template_options)
      = assocLookup k ((_register_class_with_design chain1 s k ct1).template_options)
    ∧ (get_template_options chain2 ((get_template_options chain1 s ct1 (some k)).1)
        ct2 (some k)).1
      = (get_template_options chain1 s ct1 (some k)).1 := by
  constructor
  · rw [register_of_isSome chain2 _ k ct2 (register_lookup_isSome chain1 s k ct1)]
  · have h := get_template_options_lookup_isSome chain1 s ct1 k
    cases h2 : assocLookup k (((get_template_options chain1 s ct1 (some k)).1).template_options) with
    | none => rw [h2] at h; simp at h
    | some v =>
      conv_lhs => rw [get_template_options]
      simp [h2]

/-- C10: a falsy explicit template at first registration, either the Python
None default or an empty dict, is replaced by the merged ancestry defaults
before being stored. -/
theorem register_falsy_template_uses_defaults (chain : List ClassDef)
    (s : DesignState) (k : String)
    (habs : assocLookup k s.template_options = none) :
    assocLookup k ((_register_class_with_design chain s k (some [])).template_options)
      = some (gather_all_children_options chain)
    ∧ assocLookup k ((_register_class_with_design chain s k none).template_options)
      = some (gather_all_children_options chain) := by
  unfold _register_class_with_design
  rw [habs]
  constructor
  · simp [assocLookup_append_self k s.template_options _ habs, deepcopy]
  · simp [assocLookup_append_self k s.template_options _ habs, deepcopy]

theorem register_falsy_template_uses_defaults_witness :
    assocLookup "TransmonPocket"
        ((_register_class_with_design chainC1 designEmpty "TransmonPocket"
          (some [])).template_options)
      = some (gather_all_children_options chainC1) :=
  (register_falsy_template_uses_defaults chainC1 designEmpty "TransmonPocket" rfl).1

theorem ratSqrt_four : ratSqrt 4 = 2 := by
  have hnum : (4 : ℚ).num = 4 := by norm_num
  have hden : (4 : ℚ).den = 1 := by norm_num
  unfold ratSqrt
  rw [if_neg (by norm_num)]
  simp only [hnum, hden]
  rw [show ((4 : ℤ).toNat) = 4 from rfl]
  rw [show isqrt 4 = 2 from rfl, show isqrt 1 = 1 from rfl]
  rw [if_pos (by norm_num)]
  norm_num

theorem two_points_described_concrete :
    two_points_described [((0 : ℚ), (0 : ℚ)), (2, 0)] = ((2, 0), (1, 0), (0, 1)) := by
  simp only [two_points_described]
  norm_num [vsub, normSq, ratSqrt_four]

theorem make_pin_concrete :
    make_pin [((0 : ℚ), (0 : ℚ)), (2, 0)] "parent" false "main"
      = some { points := [(0, 0), (2, 0)], middle := (1, 0), normal := (0, 1),
               tangent := (1, 0), width := 2, chip := "main",
               parent_name := "parent", net_id := 0 } := by
  unfold make_pin
  rw [if_pos (by norm_num), two_points_described_concrete]
  norm_num [normSq, ratSqrt_four]

/-- C3: make_pin on the two points (0,0) and (2,0) without flip yields width
2, tangent (1,0), middle (1,0) and a unit normal orthogonal to the tangent;
flipping negates exactly the normal and nothing else; every pin any call
returns carries net_id 0. -/
theorem make_pin_geometry :
    ((make_pin [((0 : ℚ), (0 : ℚ)), (2, 0)] "parent" false "main").map Pin.width
        = some 2)
    ∧ ((make_pin [((0 : ℚ), (0 : ℚ)), (2, 0)] "parent" false "main").map Pin.tangent
        = some (1, 0))
    ∧ ((make_pin [((0 : ℚ), (0 : ℚ)), (2, 0)] "parent" false "main").map Pin.middle
        = some (1, 0))
    ∧ ((make_pin [((0 : ℚ), (0 : ℚ)), (2, 0)] "parent" false "main").map
          (fun p => p.normal.1 * p.tangent.1 + p.normal.2 * p.tangent.2)
        = some 0)
    ∧ ((make_pin [((0 : ℚ), (0 : ℚ)), (2, 0)] "parent" false "main").map
          (fun p => normSq p.normal)
        = some 1)
    ∧ (∀ (pts : List Point) (pn : String) (ch : String),
        make_pin pts pn true ch
          = (make_pin pts pn false ch).map
              (fun p => { p with normal := (-p.normal.1, -p.normal.2) }))
    ∧ (∀ (pts : List Point) (pn : String) (fl : Bool) (ch : String),
        (make_pin pts pn fl ch).map Pin.net_id
          = (make_pin pts pn fl ch).map (fun _ => 0)) := by
  refine ⟨?_, ?_, ?_, ?_, ?_, ?_, ?_⟩
  · rw [make_pin_concrete]; rfl
  · rw [make_pin_concrete]; rfl
  · rw [make_pin_concrete]; rfl
  · rw [make_pin_concrete]; norm_num
  · rw [make_pin_concrete]; norm_num [normSq]
  · intro pts pn ch
    by_cases h : pts.length = 2 <;> simp [make_pin, h]
  · intro pts pn fl ch
    by_cases h : pts.length = 2 <;> simp [make_pin, h]

theorem countDel_append (i : Nat) (l1 l2 : List GeomCall) :
    countDel i (l1 ++ l2) = countDel i l1 + countDel i l2 := by
  induction l1 with
  | nil => simp [countDel]
  | cons c rest ih => simp [countDel, ih]; omega

theorem do_make_eq (f : MakeFn) (w : World) :
    do_make f w
      = match f (preMakeState w) with
        | (w3, some e) => (w3, some e)
        | (w3, none) =>
          if w.comp.made = true
          then ({ w3 with comp.status := "good" }, none)
          else ({ w3 with comp.made := true, comp.status := "good" }, none) := by
  unfold do_make preMakeState
  by_cases h : w.comp.made = true <;> simp [h]

theorem preMakeState_status (w : World) : (preMakeState w).comp.status = "failed" := by
  unfold preMakeState
  by_cases h : w.comp.made = true <;> simp [h]

theorem preMakeState_id (w : World) : (preMakeState w).comp.id = w.comp.id := by
  unfold preMakeState
  by_cases h : w.comp.made = true <;> simp [h]

theorem do_make_none_status (f : MakeFn) (v w2 : World)
    (h : do_make f v = (w2, none)) : w2.comp.status = "good" := by
  rw [do_make_eq] at h
  rcases hfe : f (preMakeState v) with ⟨w3, r⟩
  rw [hfe] at h
  cases r with
  | some e => simp at h
  | none =>
    replace h : (if v.comp.made = true
        then (({ w3 with comp.status := "good" } : World), (none : Option Nat))
        else (({ w3 with comp.made := true, comp.status := "good" } : World),
          (none : Option Nat)))
        = (w2, none) := h
    by_cases hm : v.comp.made = true
    · rw [if_pos hm] at h
      have h1 : ({ w3 with comp.status := "good" } : World) = w2 := congrArg Prod.fst h
      rw [← h1]
    · rw [if_neg hm] at h
      have h1 : ({ w3 with comp.made := true, comp.status := "good" } : World) = w2 :=
        congrArg Prod.fst h
      rw [← h1]

/-- C4: the build transition sets status to failed before invoking make: the
state handed to make already reads failed; an exception from make propagates
to the caller unswallowed and leaves status failed; a normal return from make
ends with status good.  The hypothesis says the user make override does not
itself write the status field. -/
theorem do_make_status_lifecycle (f : MakeFn) (w : World)
    (hstat : ∀ v, ((f v).1).comp.status = v.comp.status) :
    (preMakeState w).comp.status = "failed"
    ∧ (do_make f w).2 = (f (preMakeState w)).2
    ∧ (match f (preMakeState w) with
       | (w3, some e) => do_make f w = (w3, some e) ∧ w3.comp.status = "failed"
       | (w3, none) =>
          (do_make f w).2 = none ∧ ((do_make f w).1).comp.status = "good") := by
  refine ⟨preMakeState_status w, ?_, ?_⟩
  · rw [do_make_eq]
    rcases hfe : f (preMakeState w) with ⟨w3, r⟩
    cases r with
    | some e => rfl
    | none => by_cases hm : w.comp.made = true <;> simp [hm]
  · rcases hfe : f (preMakeState w) with ⟨w3, r⟩
    cases r with
    | some e =>
      refine ⟨?_, ?_⟩
      · rw [do_make_eq, hfe]
      · have hs := hstat (preMakeState w)
        rw [hfe] at hs
        rw [show w3.comp.status = (preMakeState w).comp.status from hs,
          preMakeState_status]
    | none =>
      have hd : do_make f w
          = ((if w.comp.made = true
              then ({ w3 with comp.status := "good" } : World)
              else { w3 with comp.made := true, comp.status := "good" }), none) := by
        rw [do_make_eq, hfe]
        by_cases hm : w.comp.made = true <;> simp [hm]
      refine ⟨?_, ?_⟩
      · rw [hd]
      · have hg := do_make_none_status f w
          (if w.comp.made = true
           then { w3 with comp.status := "good" }
           else { w3 with comp.made := true, comp.status := "good" }) hd
        rw [hd]
        exact hg

theorem do_make_status_lifecycle_witness :
    (preMakeState wC4).comp.status = "failed"
    ∧ (do_make fC4 wC4).2 = (fC4 (preMakeState wC4)).2
    ∧ (do_make fC4 wC4 = (preMakeState wC4, some 7)
       ∧ (preMakeState wC4).comp.status = "failed") :=
  do_make_status_lifecycle fC4 wC4 (fun v => rfl)

/-- C6: on a rebuild of an already made component the geometry table service
receives exactly one delete call for this component id, and it is already in
the received trace when make runs, so it happens before any call make emits;
on a first build no delete call is received.  The hypotheses say the make
override only appends to the service trace and emits no delete call for this
id. -/
theorem rebuild_purges_geometry_once (f : MakeFn) (w : World)
    (happend : ∀ v, ∃ new, ((f v).1).calls = v.calls ++ new)
    (hnodel : ∀ v new, ((f v).1).calls = v.calls ++ new → countDel w.comp.id new = 0) :
    ((do_make f w).1).calls = ((f (preMakeState w)).1).calls
    ∧ (if w.comp.made = true
       then (preMakeState w).calls = w.calls ++ [GeomCall.deleteComponent w.comp.id]
            ∧ countDel w.comp.id (((do_make f w).1).calls.drop w.calls.length) = 1
       else (preMakeState w).calls = w.calls
            ∧ countDel w.comp.id (((do_make f w).1).calls.drop w.calls.length) = 0) := by
  have hc1 : ((do_make f w).1).calls = ((f (preMakeState w)).1).calls := by
    rw [do_make_eq]
    rcases hfe : f (preMakeState w) with ⟨w3, r⟩
    cases r with
    | some e => rfl
    | none => by_cases hm : w.comp.made = true <;> simp [hm]
  refine ⟨hc1, ?_⟩
  obtain ⟨new, hnew⟩ := happend (preMakeState w)
  have hzero : countDel w.comp.id new = 0 := hnodel (preMakeState w) new hnew
  by_cases hm : w.comp.made = true
  · rw [if_pos hm]
    have hpre : (preMakeState w).calls
        = w.calls ++ [GeomCall.deleteComponent w.comp.id] := by
      unfold preMakeState
      simp [hm]
    refine ⟨hpre, ?_⟩
    rw [hc1, hnew, hpre, List.append_assoc, List.drop_left]
    rw [countDel_append, hzero]
    simp [countDel]
  · rw [if_neg hm]
    have hpre : (preMakeState w).calls = w.calls := by
      unfold preMakeState
      simp [hm]
    refine ⟨hpre, ?_⟩
    rw [hc1, hnew, hpre, List.drop_left]
    exact hzero

theorem rebuild_purges_geometry_once_witness :
    ((do_make fC6 wC6).1).calls = ((fC6 (preMakeState wC6)).1).calls
    ∧ ((preMakeState wC6).calls = wC6.calls ++ [GeomCall.deleteComponent wC6.comp.id]
       ∧ countDel wC6.comp.id (((do_make fC6 wC6).1).calls.drop wC6.calls.length) = 1) :=
  rebuild_purges_geometry_once fC6 wC6
    (fun v => ⟨[GeomCall.addElements "path" 3], rfl⟩)
    (fun v new h => by
      have h2 : v.calls ++ [GeomCall.addElements "path" 3] = v.calls ++ new := h
      have hn : new = [GeomCall.addElements "path" 3] :=
        (List.append_cancel_left h2).symm
      subst hn
      rfl)

/-- C5 counterexample: a constructor invocation that passes make as false
returns normally with status still not built, so the claim quantifying over
every normally returning constructor invocation fails as stated. -/
theorem init_without_make_not_built :
    exceptStatus (qcomponent_init chainC5 fC5 designEmpty "q5" none false none)
      = some "not built" := rfl

/-- C5 (amended): for every constructor invocation with the make flag set,
the default, that returns normally, the component status is good and in
particular never not built; only an invocation with make disabled can return
with status not built. -/
theorem init_with_make_status_good (chain : List ClassDef) (f : MakeFn)
    (s : DesignState) (name : String) (opts ct : Option OptionsMap) (w : World)
    (hok : qcomponent_init chain f s name opts true ct = Except.ok w) :
    w.comp.status = "good" ∧ w.comp.status ≠ "not built" := by
  unfold qcomponent_init at hok
  by_cases hv : s.valid = true
  · rw [if_pos hv, if_pos rfl] at hok
    rcases hd : do_make f (init_world chain s name opts ct) with ⟨w2, r⟩
    rw [hd] at hok
    cases r with
    | some e => simp at hok
    | none =>
      have hw : w2 = w := by
        injection hok
      have hg := do_make_none_status f (init_world chain s name opts ct) w2 hd
      rw [hw] at hg
      refine ⟨hg, ?_⟩
      rw [hg]
      simp
  · rw [if_neg hv] at hok
    simp at hok

theorem init_with_make_status_good_witness :
    wC5.comp.status = "good" ∧ wC5.comp.status ≠ "not built" :=
  init_with_make_status_good chainC5 fC5 designEmpty "q5" none none wC5 rfl

/-- C8: when the design argument fails the is_design check, the constructor
raises at once; the error carries the design exactly as it was passed, so no
registration and no state change has happened. -/
theorem init_invalid_design_raises (chain : List ClassDef) (f : MakeFn)
    (s : DesignState) (name : String) (opts : Option OptionsMap) (mk : Bool)
    (ct : Option OptionsMap) (hinv : s.valid = false) :
    qcomponent_init chain f s name opts mk ct
      = Except.error (InitErr.invalidDesign s) := by
  unfold qcomponent_init
  rw [hinv]
  simp

theorem init_invalid_design_raises_witness :
    qcomponent_init chainC5 fC5 designInvalid "q8" none true none
      = Except.error (InitErr.invalidDesign designInvalid) :=
  init_invalid_design_raises chainC5 fC5 designInvalid "q8" none true none rfl

/-- C7: for every element kind the service reports invalid, elements_dict
and elements_table return none without raising, and the empty emitted trace
shows the underlying retrieval operations are never invoked. -/
theorem invalid_kind_queries_return_none {γ : Type} (svc : GeomService γ)
    (c : Comp) (et : String) (h : svc.check_element_type et = false) :
    elements_dict svc c et = (none, []) ∧ elements_table svc c et = (none, []) := by
  unfold elements_dict elements_table
  rw [h]
  simp

theorem invalid_kind_queries_return_none_witness :
    elements_dict svcC7 wC4.comp "bogus" = (none, [])
    ∧ elements_table svcC7 wC4.comp "bogus" = (none, []) :=
  invalid_kind_queries_return_none svcC7 wC4.comp "bogus" rfl

theorem readRef_writeRef_ne (h : Heap) (r r2 : Nat) (m : OptionsMap)
    (hne : r2 ≠ r) : readRef (writeRef h r m) r2 = readRef h r2 := by
  unfold readRef writeRef
  simp only [assocLookup]
  rw [if_neg (fun he => hne he.symm)]

theorem hGet_spec_present (chain : List ClassDef) (h : Heap)
    (tmpl : List (String × Nat)) (ct : Option OptionsMap) (r0 : Nat)
    (hk : assocLookup (uniqueClassName chain) tmpl = some r0) :
    hGetTemplateOptions chain h tmpl ct
      = ({ store := (h.next, readRef h r0) :: h.store, next := h.next + 1 },
         tmpl, h.next) := by
  simp only [hGetTemplateOptions, hdeepcopy, halloc, hk]
  simp [readRef]

theorem hGet_spec_absent (chain : List ClassDef) (h : Heap)
    (tmpl : List (String × Nat)) (ct : Option OptionsMap)
    (hk : assocLookup (uniqueClassName chain) tmpl = none) :
    hGetTemplateOptions chain h tmpl ct
      = ({ store := (h.next + 1, registeredTemplate chain ct)
             :: (h.next, registeredTemplate chain ct) :: h.store,
           next := h.next + 2 },
         tmpl ++ [(uniqueClassName chain, h.next)], h.next + 1) := by
  simp only [hGetTemplateOptions, hRegister, hdeepcopy, halloc, hk]
  rw [assocLookup_append_self _ _ _ hk]
  simp [readRef, assocLookup]

/-- C9: the options reference get_template_options hands back is distinct
from every reference the design template map stores and holds the same value
as the stored template for this type key, so any subsequent in place mutation
of the returned options dict, including the constructor update with caller
overrides, leaves every stored template, in particular this type key, with
its value unchanged.  The hypothesis says every stored reference was
allocated earlier, which registration guarantees. -/
theorem template_deepcopy_frame (chain : List ClassDef) (h : Heap)
    (tmpl : List (String × Nat)) (ct : Option OptionsMap)
    (hwf : ∀ k r, assocLookup k tmpl = some r → r < h.next) :
    (∀ rk, assocLookup (uniqueClassName chain)
          (hGetTemplateOptions chain h tmpl ct).2.1 = some rk →
        readRef (hGetTemplateOptions chain h tmpl ct).1
            (hGetTemplateOptions chain h tmpl ct).2.2
          = readRef (hGetTemplateOptions chain h tmpl ct).1 rk)
    ∧ (∀ k r, assocLookup k (hGetTemplateOptions chain h tmpl ct).2.1 = some r →
        r ≠ (hGetTemplateOptions chain h tmpl ct).2.2
        ∧ ∀ m, readRef (writeRef (hGetTemplateOptions chain h tmpl ct).1
              (hGetTemplateOptions chain h tmpl ct).2.2 m) r
            = readRef (hGetTemplateOptions chain h tmpl ct).1 r) := by
  cases hk : assocLookup (uniqueClassName chain) tmpl with
  | some r0 =>
    rw [hGet_spec_present chain h tmpl ct r0 hk]
    constructor
    · intro rk hrk
      rw [hk] at hrk
      obtain rfl : r0 = rk := Option.some.inj hrk
      have hlt : r0 < h.next := hwf _ r0 hk
      simp [readRef, assocLookup, Nat.ne_of_gt hlt]
    · intro k r hr
      have hlt : r < h.next := hwf k r hr
      refine ⟨?_, ?_⟩
      · show r ≠ h.next
        omega
      · intro m
        exact readRef_writeRef_ne _ h.next r m (by omega)
  | none =>
    rw [hGet_spec_absent chain h tmpl ct hk]
    constructor
    · intro rk hrk
      rw [assocLookup_append_self _ _ _ hk] at hrk
      obtain rfl : h.next = rk := Option.some.inj hrk
      simp [readRef, assocLookup, Nat.succ_ne_self]
    · intro k r hr
      rw [assocLookup_append] at hr
      have hrange : r < h.next + 1 := by
        cases hk2 : assocLookup k tmpl with
        | some v =>
          rw [hk2] at hr
          have hvr : v = r := Option.some.inj hr
          have hlt := hwf k v hk2
          omega
        | none =>
          rw [hk2] at hr
          simp only [assocLookup] at hr
          by_cases hkk : uniqueClassName chain = k
          · rw [if_pos hkk] at hr
            obtain rfl : h.next = r := Option.some.inj hr
            omega
          · rw [if_neg hkk] at hr
            exact absurd hr (by simp)
      refine ⟨?_, ?_⟩
      · show r ≠ h.next + 1
        omega
      · intro m
        exact readRef_writeRef_ne _ (h.next + 1) r m (by omega)

theorem template_deepcopy_frame_witness :
    (0 : Nat) ≠ (hGetTemplateOptions chainC5 heapC9 [] none).2.2
    ∧ readRef (writeRef (hGetTemplateOptions chainC5 heapC9 [] none).1
          (hGetTemplateOptions chainC5 heapC9 [] none).2.2 [("w", "9um")]) 0
        = readRef (hGetTemplateOptions chainC5 heapC9 [] none).1 0 :=
  ⟨((template_deepcopy_frame chainC5 heapC9 [] none
      (fun k r hr => absurd hr (by simp [assocLookup]))).2 "Comp5" 0 rfl).1,
   ((template_deepcopy_frame chainC5 heapC9 [] none
      (fun k r hr => absurd hr (by simp [assocLookup]))).2 "Comp5" 0 rfl).2
     [("w", "9um")]⟩
